import Mathlib

/-!
# Reaktor `Gems` adapter: shallow embedding and verified properties

The development embeds `Reaktor/Interfaces/Gems.cpp`, the adapter that wraps a
GEMS `TNode` solver session and exposes it as a `ChemicalSystem` /
`ChemicalState`.

Conventions of the embedding

* C++ `double` values are represented by rationals `ℚ`: the code treated here
  copies them and tests them against zero. The one place that multiplies
  doubles, `chemicalPotentials`, takes the rounded product as a parameter.
* C++ `unsigned` is a 32-bit machine integer: every value converted to
  `unsigned` goes through `toUnsigned`, every `unsigned` sum through `uadd`.
* C arrays reached through raw pointers (`ICNL[index]`, `bIC[xic]`, ...) carry
  no bound of their own; they are total tables `Nat → α`, the sizes being the
  separate counters `nIC`, `nDC`, `nPH` exactly as in the GEMS data structures.
* Non-`const` member functions return the updated session (state passing).
-/

namespace Reaktor

/-! ## Machine integers -/

/-- Number of values of a C++ `unsigned` (32 bit). -/
def UNSIGNED_MOD : Nat := 2 ^ 32

/-- Conversion of a (signed, wide) integer value to `unsigned`. -/
def toUnsigned (x : Int) : Nat := (x % (UNSIGNED_MOD : Int)).toNat

/-- Sum of two `unsigned` values, wrapping around. -/
def uadd (a b : Nat) : Nat := (a + b) % UNSIGNED_MOD

/-! ## Vectors and matrices -/

/-- Dense vector of doubles (`Reaktor::Vector`). -/
abbrev Vector := List ℚ

/-- Modelled from the spec: dense matrix type (`Reaktor::Matrix`, an Eigen matrix whose
declaration is absent from the sources): a row count, a column count and the
coefficient table addressed by `(row, column)`. -/
structure Matrix where
  rows : Nat
  cols : Nat
  coeff : Nat → Nat → ℚ

/-- Modelled from the spec: `zeros(n)`, the vector made of `n` zeros. -/
def zeros (n : Nat) : Vector := List.replicate n 0

/-- Modelled from the spec: `zeros(m, n)`, the `m`-by-`n` matrix made of zeros. -/
def zerosMat (m n : Nat) : Matrix := ⟨m, n, fun _ _ => 0⟩

/-- Assignment `A(j, i) = v` to one coefficient of a matrix. -/
def Matrix.assign (A : Matrix) (j i : Nat) (v : ℚ) : Matrix :=
  { A with coeff := fun r c => if r = j ∧ c = i then v else A.coeff r c }

/-! ## The GEMS node -/

/-- Modelled from the spec: the `DATACH` record reached through `pCSD()`, absent from the
sources; only the fields read by the adapter are kept. The counters are
signed integers wider than `unsigned` (`long int` in GEMS), which the adapter
converts to `unsigned`. `A` is the stoichiometry table read by
`DCaJI(species, component)`. -/
structure DATACH where
  nIC : Int
  nDC : Int
  nPH : Int
  nDCinPH : Nat → Int
  ICNL : Nat → String
  DCNL : Nat → String
  PHNL : Nat → String
  A : Nat → Nat → ℚ
  ICmm : Nat → ℚ
  DCmm : Nat → ℚ

/-- Modelled from the spec: the `DATABR` record reached through `pCNode()`, absent from the
sources; only the fields used by the adapter are kept. -/
structure DATABR where
  NodeStatusCH : Int
  IterDone : Int
  TK : ℚ
  P : ℚ
  bIC : Nat → ℚ
  xDC : Nat → ℚ

/-- Modelled from the spec: the `ACTIVITY` record reached through
`pActiv()->GetActivityDataPtr()`, absent from the sources. -/
structure ACTIVITY where
  tpp_G : Nat → ℚ
  F : Nat → ℚ

/-- Modelled from the spec: the GEMS `TNode` session object, absent from the sources: the
chemical system definition, the node data and the activity data. -/
structure TNode where
  CSD : DATACH
  CNode : DATABR
  Activ : ACTIVITY

namespace TNode

/-- Modelled from the spec: `TNode::setTemperature`, absent from the sources: stores the
current temperature of the session. -/
def setTemperature (nd : TNode) (val : ℚ) : TNode :=
  { nd with CNode := { nd.CNode with TK := val } }

/-- Modelled from the spec: `TNode::setPressure`, absent from the sources: stores the
current pressure of the session. -/
def setPressure (nd : TNode) (val : ℚ) : TNode :=
  { nd with CNode := { nd.CNode with P := val } }

/-- Modelled from the spec: `TNode::Set_IC_b(b_val, xic)`, absent from the sources: stores
`b_val` as the amount of the independent component at position `xic`. -/
def Set_IC_b (nd : TNode) (b_val : ℚ) (xic : Nat) : TNode :=
  { nd with CNode := { nd.CNode with bIC := fun k => if k = xic then b_val else nd.CNode.bIC k } }

/-- Modelled from the spec: `TNode::DCaJI(xdc, xic)`, absent from the sources: the
stoichiometric coefficient of component `xic` in species `xdc`. -/
def DCaJI (nd : TNode) (xdc xic : Nat) : ℚ := nd.CSD.A xdc xic

/-- Modelled from the spec: `TNode::ICmm`, absent from the sources: molar mass of a component. -/
def ICmm (nd : TNode) (xic : Nat) : ℚ := nd.CSD.ICmm xic

/-- Modelled from the spec: `TNode::DCmm`, absent from the sources: molar mass of a species. -/
def DCmm (nd : TNode) (xdc : Nat) : ℚ := nd.CSD.DCmm xdc

/-- Modelled from the spec: `TNode::Get_TK`, absent from the sources: current temperature. -/
def Get_TK (nd : TNode) : ℚ := nd.CNode.TK

/-- Modelled from the spec: `TNode::Get_P`, absent from the sources: current pressure. -/
def Get_P (nd : TNode) : ℚ := nd.CNode.P

/-- Modelled from the spec: `TNode::Get_bIC`, absent from the sources: stored amount of the
independent component at position `xic`. -/
def Get_bIC (nd : TNode) (xic : Nat) : ℚ := nd.CNode.bIC xic

/-- Modelled from the spec: `TNode::Get_nDC`, absent from the sources: current amount of the
species at position `xdc`. -/
def Get_nDC (nd : TNode) (xdc : Nat) : ℚ := nd.CNode.xDC xdc

end TNode

/-- Modelled from the spec: the routines of the GEMS kernel that the adapter calls as black
boxes (file reading, the equilibrium solver, the activity-model updates and
the bulk write of a speciation). They are absent from the sources and are
taken as parameters: nothing is assumed about them. `GEM_init` and `GEM_run`
return their status code together with the updated node. `mulDouble` is the
product of two `double` values as the machine rounds it, likewise a parameter. -/
structure GemsKernel where
  mulDouble : ℚ → ℚ → ℚ
  newNode : TNode
  GEM_init : TNode → String → Int × TNode
  GEM_run : TNode → Bool → Int × TNode
  setSpeciation : TNode → Vector → TNode
  updateStandardGibbsEnergies : TNode → TNode
  initActivityCoefficients : TNode → TNode
  updateConcentrations : TNode → TNode
  updateActivityCoefficients : TNode → TNode
  updateChemicalPotentials : TNode → TNode

/-! ## Records of the chemical model -/

/-- Modelled from the spec: `std::map<unsigned, double>`: the entries in increasing key order. -/
abbrev StdMap := List (Nat × ℚ)

namespace StdMap

/-- The assignment `m[k] = v`: overwrites the entry of `k`, or inserts it at its
place in key order. -/
def assign : StdMap → Nat → ℚ → StdMap
  | [], k, v => [(k, v)]
  | (k', v') :: m, k, v =>
    if k < k' then (k, v) :: (k', v') :: m
    else if k = k' then (k, v) :: m
    else (k', v') :: assign m k v

/-- Lookup of a key (`find`): the mapped value, if the key is present. -/
def find (m : StdMap) (k : Nat) : Option ℚ := List.lookup k m

/-- Whether a key is present (`count(k) != 0`). -/
def contains (m : StdMap) (k : Nat) : Bool := (m.find k).isSome

end StdMap

/-- Modelled from the spec: `ElementData`, whose declaration is absent from the sources. -/
structure Element where
  name : String
  molar_mass : ℚ

/-- Modelled from the spec: `SpeciesData`, whose declaration is absent from the sources;
`elements` and `atoms` are parallel lists (element, coefficient). -/
structure Species where
  name : String
  molar_mass : ℚ
  charge : ℚ
  formula : String
  elements : List Element
  atoms : List ℚ

/-- Modelled from the spec: `PhaseData`, whose declaration is absent from the sources. -/
structure Phase where
  name : String
  species : List Species

/-- Modelled from the spec: `ThermoVector(val, ddt, ddp)`, whose declaration is absent from
the sources. -/
structure ThermoVector where
  val : Vector
  ddt : Vector
  ddp : Vector

/-- Modelled from the spec: `ChemicalVector(val, ddt, ddp, ddn)`, whose declaration is
absent from the sources. -/
structure ChemicalVector where
  val : Vector
  ddt : Vector
  ddp : Vector
  ddn : Matrix

/-! ## The adapter session -/

/-- The record `Gems::Impl`: the node and the elapsed time of `equilibrate`. -/
structure Gems where
  node : TNode
  elapsed_time : ℚ

namespace Gems

/-- `Gems::setTemperature`. -/
def setTemperature (g : Gems) (val : ℚ) : Gems :=
  { g with node := g.node.setTemperature val }

/-- `Gems::setPressure`. -/
def setPressure (g : Gems) (val : ℚ) : Gems :=
  { g with node := g.node.setPressure val }

/-- `Gems::setSpeciesAmounts`. -/
def setSpeciesAmounts (K : GemsKernel) (g : Gems) (n : Vector) : Gems :=
  { g with node := K.setSpeciation g.node n }

/-- `Gems::numElements`: `nIC - 1`, returned as `unsigned`. -/
def numElements (g : Gems) : Nat := toUnsigned (g.node.CSD.nIC - 1)

/-- `Gems::numSpecies`. -/
def numSpecies (g : Gems) : Nat := toUnsigned g.node.CSD.nDC

/-- `Gems::numPhases`. -/
def numPhases (g : Gems) : Nat := toUnsigned g.node.CSD.nPH

/-- `Gems::numSpeciesInPhase`. -/
def numSpeciesInPhase (g : Gems) (index : Nat) : Nat := toUnsigned (g.node.CSD.nDCinPH index)

/-- `Gems::elementName`. -/
def elementName (g : Gems) (index : Nat) : String := g.node.CSD.ICNL index

/-- `Gems::speciesName`. -/
def speciesName (g : Gems) (index : Nat) : String := g.node.CSD.DCNL index

/-- `Gems::phaseName`. -/
def phaseName (g : Gems) (index : Nat) : String := g.node.CSD.PHNL index

/-- The search loop shared by the three name lookups:
`for(; index < size; ++index) if(nameAt(index) == name) return index; return size;`.
The first argument bounds the number of iterations; `size - index` of them
suffice. The increment cannot wrap, since `index < size < 2 ^ 32`. -/
def indexLoop (nameAt : Nat → String) (name : String) (size : Nat) : Nat → Nat → Nat
  | 0, _ => size
  | fuel + 1, index =>
    if index < size then
      if nameAt index = name then index
      else indexLoop nameAt name size fuel (index + 1)
    else size

/-- `Gems::elementIndex`. -/
def elementIndex (g : Gems) (name : String) : Nat :=
  let size := g.numElements
  indexLoop g.elementName name size size 0

/-- `Gems::speciesIndex`. -/
def speciesIndex (g : Gems) (name : String) : Nat :=
  let size := g.numSpecies
  indexLoop g.speciesName name size size 0

/-- `Gems::phaseIndex`. -/
def phaseIndex (g : Gems) (name : String) : Nat :=
  let size := g.numPhases
  indexLoop g.phaseName name size size 0

/-- The loop of `Gems::setElementAmounts`:
`for(unsigned i = 0; i < numElements(); ++i) node().Set_IC_b(b[i], i);`.
The bound is read again at every iteration, as in the source. The first
argument bounds the number of iterations. -/
def setElementAmountsLoop (b : Vector) : Nat → Nat → Gems → Gems
  | 0, _, g => g
  | fuel + 1, i, g =>
    if i < g.numElements then
      setElementAmountsLoop b fuel (i + 1) { g with node := g.node.Set_IC_b (b.getD i 0) i }
    else g

/-- `Gems::setElementAmounts`: the amounts of the elements, then
`node().Set_IC_b(0.0, numElements() + 1)` under the comment "Set charge to zero". -/
def setElementAmounts (g : Gems) (b : Vector) : Gems :=
  let g1 := setElementAmountsLoop b g.numElements 0 g
  { g1 with node := g1.node.Set_IC_b 0 (uadd g1.numElements 1) }

/-- `Gems::elementAtomsInSpecies`. -/
def elementAtomsInSpecies (g : Gems) (ielement ispecies : Nat) : ℚ :=
  g.node.DCaJI ispecies ielement

/-- `Gems::speciesCharge`. -/
def speciesCharge (g : Gems) (index : Nat) : ℚ :=
  g.elementAtomsInSpecies g.numElements index

/-- `Gems::elementsInSpecies`. -/
def elementsInSpecies (g : Gems) (index : Nat) : StdMap :=
  (List.range g.numElements).foldl
    (fun elements j =>
      if g.elementAtomsInSpecies j index ≠ 0 then
        elements.assign j (g.elementAtomsInSpecies j index)
      else elements)
    []

/-- `Gems::elementMolarMass`. -/
def elementMolarMass (g : Gems) (index : Nat) : ℚ := g.node.ICmm index

/-- `Gems::speciesMolarMass`. -/
def speciesMolarMass (g : Gems) (index : Nat) : ℚ := g.node.DCmm index

/-- `Gems::temperature`. -/
def temperature (g : Gems) : ℚ := g.node.Get_TK

/-- `Gems::pressure`. -/
def pressure (g : Gems) : ℚ := g.node.Get_P

/-- `Gems::elementAmounts`. The fresh vector `b(numElements())` is
uninitialised in C++; every entry is overwritten by the loop. -/
def elementAmounts (g : Gems) : Vector :=
  let b := zeros g.numElements
  (List.range b.length).foldl (fun b i => b.set i (g.node.Get_bIC i)) b

/-- `Gems::speciesAmount`. -/
def speciesAmount (g : Gems) (index : Nat) : ℚ := g.node.Get_nDC index

/-- `Gems::speciesAmounts`. The fresh vector `n(numSpecies())` is uninitialised
in C++; every entry is overwritten by the loop. -/
def speciesAmounts (g : Gems) : Vector :=
  let n := zeros g.numSpecies
  (List.range n.length).foldl (fun n i => n.set i (g.speciesAmount i)) n

/-- `Gems::formulaMatrix`. The fresh matrix `A(E, N)` is uninitialised in C++;
the two nested loops assign its coefficients. -/
def formulaMatrix (g : Gems) : Matrix :=
  let E := g.numElements
  let N := g.numSpecies
  (List.range N).foldl
    (fun A i => (List.range E).foldl (fun A j => A.assign j i (g.elementAtomsInSpecies j i)) A)
    (zerosMat E N)

/-- `Gems::gibbsEnergies` (not `const`: the node is updated). -/
def gibbsEnergies (K : GemsKernel) (g : Gems) : Vector × Gems :=
  let num_species := g.numSpecies
  let g1 : Gems := { g with node := K.updateStandardGibbsEnergies g.node }
  let ap := g1.node.Activ
  ((List.range num_species).foldl (fun u0 i => u0.set i (ap.tpp_G i)) (zeros num_species), g1)

/-- `Gems::chemicalPotentials` (not `const`: the node is updated). `R` is the
value of the `double` literal `8.31451`, a multiple of `2 ^ (-49)`; the two
products are products of doubles. -/
def chemicalPotentials (K : GemsKernel) (g : Gems) : Vector × Gems :=
  let T := g.temperature
  let R : ℚ := 4680653017221033 / 562949953421312
  let RT := K.mulDouble R T
  let num_species := g.numSpecies
  let nd := K.updateStandardGibbsEnergies g.node
  let nd := K.initActivityCoefficients nd
  let nd := K.updateConcentrations nd
  let nd := K.updateActivityCoefficients nd
  let nd := K.updateChemicalPotentials nd
  let ap := nd.Activ
  ((List.range num_species).foldl (fun u i => u.set i (K.mulDouble RT (ap.F i))) (zeros num_species),
    { g with node := nd })

/-- The constructor `Gems::Gems(std::string filename)`: a fresh `Impl`
(elapsed time `0`), then `GEM_init`; a non-zero result raises the error. -/
def fromFile (K : GemsKernel) (filename : String) : Except String Gems :=
  let pimpl : Gems := { node := K.newNode, elapsed_time := 0 }
  let r := K.GEM_init pimpl.node filename
  if r.1 ≠ 0 then
    Except.error "Error reading the Gems chemical system specification file."
  else
    Except.ok { pimpl with node := r.2 }

end Gems

/-! ## Conversion helpers -/

namespace helper

/-- `helper::createElement`. -/
def createElement (gems : Gems) (ielement : Nat) : Element :=
  { name := gems.elementName ielement, molar_mass := gems.elementMolarMass ielement }

/-- `helper::createSpecies`. -/
def createSpecies (gems : Gems) (ispecies : Nat) : Species :=
  let data : Species :=
    { name := gems.speciesName ispecies
      molar_mass := gems.speciesMolarMass ispecies
      charge := gems.speciesCharge ispecies
      formula := gems.speciesName ispecies
      elements := []
      atoms := [] }
  (gems.elementsInSpecies ispecies).foldl
    (fun (data : Species) pair =>
      { data with
        elements := data.elements ++ [createElement gems pair.1]
        atoms := data.atoms ++ [pair.2] })
    data

/-- One turn of the outer loop of `helper::createPhases`, on the loop state
`(offset, phases)`. The inner loop runs `ispecies` from `offset` while
`ispecies < offset + numSpeciesInPhase(iphase)`, a bound computed in
`unsigned` arithmetic; then the phase is appended and `offset` advanced. -/
def createPhasesStep (gems : Gems) (st : Nat × List Phase) (iphase : Nat) : Nat × List Phase :=
  let offset := st.1
  let bound := uadd offset (gems.numSpeciesInPhase iphase)
  let species : List Species :=
    (List.range' offset (bound - offset)).foldl
      (fun species ispecies => species ++ [createSpecies gems ispecies]) []
  (uadd offset (gems.numSpeciesInPhase iphase),
    st.2 ++ [{ name := gems.phaseName iphase, species := species }])

/-- `helper::createPhases`: the outer loop over the phases, from `offset = 0`
and no phase. -/
def createPhases (gems : Gems) : List Phase :=
  ((List.range gems.numPhases).foldl (createPhasesStep gems) (0, [])).2

/-- The number of species in the phases before phase `k`: the sum of
`numSpeciesInPhase(p)` over `p < k` (a quantity of the specification, computed
without wrap-around). -/
def phaseOffset (gems : Gems) (k : Nat) : Nat :=
  ((List.range k).map gems.numSpeciesInPhase).sum

end helper

/-- Modelled from the spec: `ChemicalSystemData`, whose declaration is absent from the
sources. The two model functions are closures over the copy `gems` of the
session; the copy is kept in the field `gems` and threaded through the calls,
each call returning the copy as it has left it. -/
structure ChemicalSystem where
  phases : List Phase
  gibbs_energies : ℚ → ℚ → Gems → ThermoVector × Gems
  chemical_potentials : ℚ → ℚ → Vector → Gems → ChemicalVector × Gems
  gems : Gems

/-- Modelled from the spec: `ChemicalState`, whose declaration is absent from the sources:
a system with a temperature, a pressure and the amounts of the species. -/
structure ChemicalState where
  system : ChemicalSystem
  T : ℚ
  P : ℚ
  n : Vector

namespace ChemicalState

/-- Modelled from the spec: the constructor `ChemicalState(system)`, absent from the
sources; the three values it starts with are all overwritten by the
conversion below. -/
def ofSystem (system : ChemicalSystem) : ChemicalState :=
  { system := system, T := 0, P := 0, n := [] }

/-- Modelled from the spec: `ChemicalState::setTemperature`, absent from the sources. -/
def setTemperature (st : ChemicalState) (val : ℚ) : ChemicalState := { st with T := val }

/-- Modelled from the spec: `ChemicalState::setPressure`, absent from the sources. -/
def setPressure (st : ChemicalState) (val : ℚ) : ChemicalState := { st with P := val }

/-- Modelled from the spec: `ChemicalState::setSpeciesAmounts`, absent from the sources. -/
def setSpeciesAmounts (st : ChemicalState) (n : Vector) : ChemicalState := { st with n := n }

end ChemicalState

namespace Gems

/-- `Gems::operator ChemicalSystem`. -/
def toChemicalSystem (K : GemsKernel) (self : Gems) : ChemicalSystem :=
  let gems := self
  let num_species := gems.numSpecies
  let zero_vec := zeros num_species
  let zero_mat := zerosMat num_species num_species
  { phases := helper.createPhases self
    gibbs_energies := fun T P gems =>
      let gems := gems.setTemperature T
      let gems := gems.setPressure P
      let r := gems.gibbsEnergies K
      (⟨r.1, zero_vec, zero_vec⟩, r.2)
    chemical_potentials := fun T P n gems =>
      let gems := gems.setTemperature T
      let gems := gems.setPressure P
      let gems := gems.setSpeciesAmounts K n
      let r := gems.chemicalPotentials K
      (⟨r.1, zero_vec, zero_vec, zero_mat⟩, r.2)
    gems := gems }

/-- `Gems::operator ChemicalState`, a `const` member: the session is only read,
and is returned next to the state as the conversion leaves it. -/
def toChemicalState (K : GemsKernel) (self : Gems) : ChemicalState × Gems :=
  let system := self.toChemicalSystem K
  let state := ChemicalState.ofSystem system
  let state := state.setTemperature self.temperature
  let state := state.setPressure self.pressure
  let state := state.setSpeciesAmounts self.speciesAmounts
  (state, self)

end Gems

/-! ## Equilibration and amounts per phase -/

/-- Modelled from the spec: the node status codes `NEED_GEM_SIA`, `OK_GEM_AIA` and
`OK_GEM_SIA` of GEMS, constants whose declaration is absent from the sources;
they are taken as parameters, nothing being assumed about their values. -/
structure NodeStatusCodes where
  NEED_GEM_SIA : Int
  OK_GEM_AIA : Int
  OK_GEM_SIA : Int

/-- The record of one call of the external solver `GEM_run`: the node the
solver was started on and the flag it was given. -/
structure SolverCall where
  node : TNode
  flag : Bool

namespace Gems

/-- `Gems::speciesAmountsInPhase`. The fresh vector `np(size)` is uninitialised
in C++; every entry is overwritten by the second loop. `offset` is an
`unsigned` accumulator and `offset + i` an `unsigned` sum. -/
def speciesAmountsInPhase (g : Gems) (index : Nat) : Vector :=
  let size := g.numSpeciesInPhase index
  let np := zeros size
  let offset := (List.range index).foldl (fun offset i => uadd offset (g.numSpeciesInPhase i)) 0
  (List.range size).foldl (fun np i => np.set i (g.speciesAmount (uadd offset i))) np

/-- `Gems::equilibrate`. Modelled from the spec: `time()` and `elapsed(start)` of
`TimeUtils`, absent from the sources, are the two clock readings `start` and
`stop`, the elapsed time being their difference. The second component lists
the calls of the external solver made by the function, in order: there is one
entry per `node().GEM_run(...)` executed. -/
def equilibrate (K : GemsKernel) (C : NodeStatusCodes) (start stop : ℚ) (g : Gems) :
    Gems × List SolverCall :=
  let nd : TNode := { g.node with CNode := { g.node.CNode with NodeStatusCH := C.NEED_GEM_SIA } }
  let r := K.GEM_run nd false
  ({ node := r.2, elapsed_time := stop - start }, [{ node := nd, flag := false }])

/-- `Gems::converged`, a `const` member that only compares the status of the
node with the two success codes; it has no access to the solver. -/
def converged (C : NodeStatusCodes) (g : Gems) : Bool :=
  let status := g.node.CNode.NodeStatusCH
  status == C.OK_GEM_AIA || status == C.OK_GEM_SIA

/-- `Gems::numIterations`. -/
def numIterations (g : Gems) : Nat := toUnsigned g.node.CNode.IterDone

/-- `Gems::elapsedTime`. -/
def elapsedTime (g : Gems) : ℚ := g.elapsed_time

end Gems

/-! ## A small session used to exercise the definitions -/

/-- A water system: elements `H`, `O` and the charge `Zz`; an aqueous phase
with three species and a gas phase with one. -/
def sampleNode : TNode where
  CSD :=
    { nIC := 3, nDC := 4, nPH := 2
      nDCinPH := fun k => if k = 0 then 3 else if k = 1 then 1 else 0
      ICNL := fun k => if k = 0 then "H" else if k = 1 then "O" else if k = 2 then "Zz" else ""
      DCNL := fun k =>
        if k = 0 then "H+" else if k = 1 then "OH-" else if k = 2 then "H2O@"
        else if k = 3 then "H2" else ""
      PHNL := fun k => if k = 0 then "aq_gen" else if k = 1 then "gas_gen" else ""
      A := fun s e =>
        if s = 0 then (if e = 0 then 1 else if e = 2 then 1 else 0)
        else if s = 1 then (if e = 0 then 1 else if e = 1 then 1 else if e = 2 then -1 else 0)
        else if s = 2 then (if e = 0 then 2 else if e = 1 then 1 else 0)
        else if s = 3 then (if e = 0 then 2 else 0)
        else 0
      ICmm := fun k => if k = 0 then 1 / 1000 else if k = 1 then 16 / 1000 else 0
      DCmm := fun k =>
        if k = 0 then 1 / 1000 else if k = 1 then 17 / 1000 else if k = 2 then 18 / 1000
        else if k = 3 then 2 / 1000 else 0 }
  CNode :=
    { NodeStatusCH := 0, IterDone := 0, TK := 298, P := 100000
      bIC := fun k => if k = 0 then 111 else if k = 1 then 55 else if k = 2 then 1 else 0
      xDC := fun k => if k = 2 then 55 else 0 }
  Activ := { tpp_G := fun _ => 0, F := fun _ => 0 }

/-- The session over `sampleNode`. -/
def sampleGems : Gems := { node := sampleNode, elapsed_time := 0 }

/-- A kernel whose file reader accepts `water.lst` alone, whose other routines
leave the node as it is and whose product of doubles is not rounded. -/
def sampleKernel : GemsKernel where
  mulDouble := fun x y => x * y
  newNode := sampleNode
  GEM_init := fun nd filename => if filename = "water.lst" then (0, nd) else (1, nd)
  GEM_run := fun nd _ => (0, nd)
  setSpeciation := fun nd _ => nd
  updateStandardGibbsEnergies := fun nd => nd
  initActivityCoefficients := fun nd => nd
  updateConcentrations := fun nd => nd
  updateActivityCoefficients := fun nd => nd
  updateChemicalPotentials := fun nd => nd

/-- The status codes with the values they have in GEMS. -/
def sampleCodes : NodeStatusCodes := { NEED_GEM_SIA := 5, OK_GEM_AIA := 2, OK_GEM_SIA := 6 }

/-- A kernel as `sampleKernel` whose solver ends with the status it is told. -/
def kernelEndingWith (status : Int) : GemsKernel :=
  { sampleKernel with
    GEM_run := fun nd _ =>
      (status, { nd with CNode := { nd.CNode with NodeStatusCH := status, IterDone := 7 } }) }

/-- A session whose component counter exceeds the range of `unsigned`:
`nIC = 2 ^ 32 + 1`. -/
def wideGems : Gems :=
  { node := { sampleNode with CSD := { sampleNode.CSD with nIC := 4294967297 } }
    elapsed_time := 0 }

/-! ## Name lookup -/

theorem indexLoop_miss (nameAt : Nat → String) (name : String) (size : Nat) :
    ∀ (fuel index : Nat), (∀ i, index ≤ i → i < size → nameAt i ≠ name) →
      Gems.indexLoop nameAt name size fuel index = size := by
  intro fuel
  induction fuel with
  | zero => intro index _; rfl
  | succ k ih =>
    intro index h
    unfold Gems.indexLoop
    by_cases hlt : index < size
    · have hne : nameAt index ≠ name := h index (Nat.le_refl _) hlt
      rw [if_pos hlt, if_neg hne]
      exact ih (index + 1) (fun i hi his => h i (Nat.le_of_succ_le hi) his)
    · rw [if_neg hlt]

/-- C1: for a name carried by no element (species, phase) below the respective
count, `elementIndex` returns `numElements()`, `speciesIndex` returns
`numSpecies()` and `phaseIndex` returns `numPhases()`; the three lookups are
total functions and raise nothing. -/
theorem index_of_unknown_name_is_count (g : Gems) (name : String) :
    ((∀ i, i < g.numElements → g.elementName i ≠ name) → g.elementIndex name = g.numElements) ∧
    ((∀ i, i < g.numSpecies → g.speciesName i ≠ name) → g.speciesIndex name = g.numSpecies) ∧
    ((∀ i, i < g.numPhases → g.phaseName i ≠ name) → g.phaseIndex name = g.numPhases) := by
  refine ⟨fun h => ?_, fun h => ?_, fun h => ?_⟩
  · exact indexLoop_miss _ _ _ _ 0 (fun i _ hi => h i hi)
  · exact indexLoop_miss _ _ _ _ 0 (fun i _ hi => h i hi)
  · exact indexLoop_miss _ _ _ _ 0 (fun i _ hi => h i hi)

/-- C1 at the sample session: `Zzz` names no element, species or phase. -/
theorem index_of_unknown_name_is_count_witness :
    sampleGems.elementIndex "Zzz" = sampleGems.numElements ∧
    sampleGems.speciesIndex "Zzz" = sampleGems.numSpecies ∧
    sampleGems.phaseIndex "Zzz" = sampleGems.numPhases :=
  ⟨(index_of_unknown_name_is_count sampleGems "Zzz").1 (by decide),
   (index_of_unknown_name_is_count sampleGems "Zzz").2.1 (by decide),
   (index_of_unknown_name_is_count sampleGems "Zzz").2.2 (by decide)⟩

theorem indexLoop_le (nameAt : Nat → String) (name : String) (size : Nat) :
    ∀ (fuel index : Nat), index ≤ size →
      Gems.indexLoop nameAt name size fuel index ≤ size := by
  intro fuel
  induction fuel with
  | zero => intro index _; exact Nat.le_refl _
  | succ k ih =>
    intro index h
    unfold Gems.indexLoop
    by_cases hlt : index < size
    · rw [if_pos hlt]
      by_cases heq : nameAt index = name
      · rw [if_pos heq]; exact h
      · rw [if_neg heq]; exact ih (index + 1) hlt
    · rw [if_neg hlt]

theorem indexLoop_hit (nameAt : Nat → String) (name : String) (size : Nat) :
    ∀ (fuel index : Nat), Gems.indexLoop nameAt name size fuel index < size →
      nameAt (Gems.indexLoop nameAt name size fuel index) = name ∧
      index ≤ Gems.indexLoop nameAt name size fuel index ∧
      ∀ k, index ≤ k → k < Gems.indexLoop nameAt name size fuel index → nameAt k ≠ name := by
  intro fuel
  induction fuel with
  | zero => intro index h; exact absurd h (Nat.lt_irrefl _)
  | succ k ih =>
    intro index
    unfold Gems.indexLoop
    by_cases hlt : index < size
    · rw [if_pos hlt]
      by_cases heq : nameAt index = name
      · rw [if_pos heq]
        intro _
        exact ⟨heq, Nat.le_refl _, fun j hj hj2 => absurd (Nat.lt_of_le_of_lt hj hj2) (Nat.lt_irrefl _)⟩
      · rw [if_neg heq]
        intro h
        obtain ⟨h1, h2, h3⟩ := ih (index + 1) h
        refine ⟨h1, Nat.le_of_succ_le h2, fun j hj hj2 => ?_⟩
        rcases Nat.eq_or_lt_of_le hj with hje | hjl
        · exact hje ▸ heq
        · exact h3 j hjl hj2
    · rw [if_neg hlt]
      intro h
      exact absurd h (Nat.lt_irrefl _)

/-- The search loop started at `0` with `size` iterations allowed: when the name
occurs below `size`, the result is the first position that carries it. -/
theorem indexLoop_found (nameAt : Nat → String) (name : String) (size : Nat)
    (h : ∃ i, i < size ∧ nameAt i = name) :
    Gems.indexLoop nameAt name size size 0 < size ∧
    nameAt (Gems.indexLoop nameAt name size size 0) = name ∧
    ∀ k, k < Gems.indexLoop nameAt name size size 0 → nameAt k ≠ name := by
  have hlt : Gems.indexLoop nameAt name size size 0 < size := by
    rcases Nat.eq_or_lt_of_le (indexLoop_le nameAt name size size 0 (Nat.zero_le _)) with he | hl
    · exfalso
      obtain ⟨i, hi, hn⟩ := h
      have hmiss : ∀ (fuel index : Nat),
          Gems.indexLoop nameAt name size fuel index = size → index ≤ i → fuel + index = size →
          False := by
        intro fuel
        induction fuel with
        | zero =>
          intro index _ hle hsum
          omega
        | succ k ih =>
          intro index hres hle hsum
          unfold Gems.indexLoop at hres
          have hidx : index < size := by omega
          rw [if_pos hidx] at hres
          by_cases heq : nameAt index = name
          · rw [if_pos heq] at hres; omega
          · rw [if_neg heq] at hres
            have hne : index ≠ i := fun e => heq (e ▸ hn)
            exact ih (index + 1) hres (by omega) (by omega)
      exact hmiss size 0 he (Nat.zero_le _) (by omega)
    · exact hl
  obtain ⟨h1, _, h3⟩ := indexLoop_hit nameAt name size size 0 hlt
  exact ⟨hlt, h1, fun k hk => h3 k (Nat.zero_le _) hk⟩

/-- The search loop returns `size` exactly when the name occurs nowhere below `size`. -/
theorem indexLoop_eq_size_iff (nameAt : Nat → String) (name : String) (size : Nat) :
    Gems.indexLoop nameAt name size size 0 = size ↔ ∀ i, i < size → nameAt i ≠ name := by
  constructor
  · intro he i hi hn
    have := (indexLoop_found nameAt name size ⟨i, hi, hn⟩).1
    omega
  · intro h
    exact indexLoop_miss nameAt name size size 0 (fun i _ hi => h i hi)

/-- C2: for a name carried by some element below `numElements()`,
`elementIndex` returns the smallest index carrying it, which is below the
count and whose name is the one looked up; likewise for species and phases.
In each case the result is the count if and only if the name is absent. -/
theorem index_of_known_name_is_first (g : Gems) (name : String) :
    ((∃ i, i < g.numElements ∧ g.elementName i = name) →
      g.elementIndex name < g.numElements ∧ g.elementName (g.elementIndex name) = name ∧
      ∀ k, k < g.elementIndex name → g.elementName k ≠ name) ∧
    ((∃ i, i < g.numSpecies ∧ g.speciesName i = name) →
      g.speciesIndex name < g.numSpecies ∧ g.speciesName (g.speciesIndex name) = name ∧
      ∀ k, k < g.speciesIndex name → g.speciesName k ≠ name) ∧
    ((∃ i, i < g.numPhases ∧ g.phaseName i = name) →
      g.phaseIndex name < g.numPhases ∧ g.phaseName (g.phaseIndex name) = name ∧
      ∀ k, k < g.phaseIndex name → g.phaseName k ≠ name) ∧
    (g.elementIndex name = g.numElements ↔ ∀ i, i < g.numElements → g.elementName i ≠ name) ∧
    (g.speciesIndex name = g.numSpecies ↔ ∀ i, i < g.numSpecies → g.speciesName i ≠ name) ∧
    (g.phaseIndex name = g.numPhases ↔ ∀ i, i < g.numPhases → g.phaseName i ≠ name) :=
  ⟨indexLoop_found g.elementName name g.numElements,
   indexLoop_found g.speciesName name g.numSpecies,
   indexLoop_found g.phaseName name g.numPhases,
   indexLoop_eq_size_iff g.elementName name g.numElements,
   indexLoop_eq_size_iff g.speciesName name g.numSpecies,
   indexLoop_eq_size_iff g.phaseName name g.numPhases⟩

/-- C2 at the sample session: `O` is element 1, `H2O@` is species 2 and
`gas_gen` is phase 1. -/
theorem index_of_known_name_is_first_witness :
    (sampleGems.elementIndex "O" < sampleGems.numElements ∧
      sampleGems.elementName (sampleGems.elementIndex "O") = "O" ∧
      ∀ k, k < sampleGems.elementIndex "O" → sampleGems.elementName k ≠ "O") ∧
    (sampleGems.speciesIndex "H2O@" < sampleGems.numSpecies ∧
      sampleGems.speciesName (sampleGems.speciesIndex "H2O@") = "H2O@" ∧
      ∀ k, k < sampleGems.speciesIndex "H2O@" → sampleGems.speciesName k ≠ "H2O@") ∧
    (sampleGems.phaseIndex "gas_gen" < sampleGems.numPhases ∧
      sampleGems.phaseName (sampleGems.phaseIndex "gas_gen") = "gas_gen" ∧
      ∀ k, k < sampleGems.phaseIndex "gas_gen" → sampleGems.phaseName k ≠ "gas_gen") :=
  ⟨(index_of_known_name_is_first sampleGems "O").1 ⟨1, by decide, by decide⟩,
   (index_of_known_name_is_first sampleGems "H2O@").2.1 ⟨2, by decide, by decide⟩,
   (index_of_known_name_is_first sampleGems "gas_gen").2.2.1 ⟨1, by decide, by decide⟩⟩

/-! ## Conversion to a chemical system and a chemical state -/

/-- C3: in the system converted from a session with `N = numSpecies()` species,
whatever `T`, `P`, `n` and whatever the state of the captured session copy,
the Gibbs-energy model returns `ddt = ddp = zeros(N)` and the
chemical-potential model returns `ddt = ddp = zeros(N)` and
`ddn = zeros(N, N)`; the value channels are `gibbsEnergies()` and
`chemicalPotentials()` of the copy after `T`, `P` (and `n`) were set in it. -/
theorem adapter_models_have_zero_derivatives (K : GemsKernel) (g : Gems) (T P : ℚ)
    (n : Vector) (s : Gems) :
    ((g.toChemicalSystem K).gibbs_energies T P s).1.ddt = zeros g.numSpecies ∧
    ((g.toChemicalSystem K).gibbs_energies T P s).1.ddp = zeros g.numSpecies ∧
    ((g.toChemicalSystem K).chemical_potentials T P n s).1.ddt = zeros g.numSpecies ∧
    ((g.toChemicalSystem K).chemical_potentials T P n s).1.ddp = zeros g.numSpecies ∧
    ((g.toChemicalSystem K).chemical_potentials T P n s).1.ddn
      = zerosMat g.numSpecies g.numSpecies ∧
    zeros g.numSpecies = List.replicate g.numSpecies (0 : ℚ) ∧
    (zeros g.numSpecies).length = g.numSpecies ∧
    (zerosMat g.numSpecies g.numSpecies).rows = g.numSpecies ∧
    (zerosMat g.numSpecies g.numSpecies).cols = g.numSpecies ∧
    (∀ r c, (zerosMat g.numSpecies g.numSpecies).coeff r c = 0) ∧
    ((g.toChemicalSystem K).gibbs_energies T P s).1.val
      = (((s.setTemperature T).setPressure P).gibbsEnergies K).1 ∧
    ((g.toChemicalSystem K).chemical_potentials T P n s).1.val
      = ((((s.setTemperature T).setPressure P).setSpeciesAmounts K n).chemicalPotentials K).1 ∧
    (g.toChemicalSystem K).gems = g := by
  refine ⟨rfl, rfl, rfl, rfl, rfl, rfl, ?_, rfl, rfl, fun _ _ => rfl, rfl, rfl, rfl⟩
  simp [zeros]

/-- A loop `for i < m: v[i] = f(i)` over a vector of length at least `m` leaves
the length alone, puts `f i` at every `i < m` and keeps the other entries. -/
theorem foldl_set_range (f : Nat → ℚ) (m : Nat) (v : List ℚ) :
    ((List.range m).foldl (fun u i => u.set i (f i)) v).length = v.length ∧
    ∀ i, ((List.range m).foldl (fun u i => u.set i (f i)) v)[i]?
      = if i < m ∧ i < v.length then some (f i) else v[i]? := by
  induction m with
  | zero => simp
  | succ k ih =>
    rw [List.range_succ, List.foldl_append]
    obtain ⟨hlen, hget⟩ := ih
    refine ⟨by simp [hlen], fun i => ?_⟩
    simp only [List.foldl_cons, List.foldl_nil]
    rw [List.getElem?_set]
    by_cases hik : k = i
    · subst hik
      by_cases hl : k < v.length
      · simp [hlen, hl]
      · have : v[k]? = none := List.getElem?_eq_none (by omega)
        simp [hlen, hl, hget, this]
    · rw [if_neg hik, hget]
      by_cases h1 : i < k
      · have h2 : i < k + 1 := by omega
        simp [h1, h2]
      · have h2 : ¬ i < k + 1 := by omega
        simp [h1, h2]

/-- The loop of `speciesAmounts` (and of the other vector getters) tabulates
its right-hand side over the indices below the length. -/
theorem foldl_set_range_zeros (f : Nat → ℚ) (N : Nat) :
    (List.range (zeros N).length).foldl (fun u i => u.set i (f i)) (zeros N)
      = (List.range N).map f := by
  have hz : (zeros N).length = N := by simp [zeros]
  obtain ⟨hlen, hget⟩ := foldl_set_range f (zeros N).length (zeros N)
  apply List.ext_getElem?
  intro i
  rw [hget i, hz]
  by_cases hi : i < N
  · simp [hi]
  · have h1 : (zeros N)[i]? = none := List.getElem?_eq_none (by omega)
    have h2 : (List.range N)[i]? = none := List.getElem?_eq_none (by simp; omega)
    simp [hi, h1, h2]

theorem speciesAmounts_eq (g : Gems) :
    g.speciesAmounts = (List.range g.numSpecies).map g.speciesAmount :=
  foldl_set_range_zeros g.speciesAmount g.numSpecies

/-- C4: the state converted from a session carries the session's
`temperature()`, `pressure()` and `speciesAmounts()`, a vector of length
`numSpecies()` whose entry at every species index `i` is `speciesAmount(i)`;
the session after the conversion is the session before it, so its
temperature, pressure and species amounts are unchanged. -/
theorem state_conversion_reproduces_session (K : GemsKernel) (g : Gems) :
    (g.toChemicalState K).1.T = g.temperature ∧
    (g.toChemicalState K).1.P = g.pressure ∧
    (g.toChemicalState K).1.n = g.speciesAmounts ∧
    (g.toChemicalState K).1.n.length = g.numSpecies ∧
    (∀ i, i < g.numSpecies → (g.toChemicalState K).1.n[i]? = some (g.speciesAmount i)) ∧
    (g.toChemicalState K).2 = g ∧
    (g.toChemicalState K).2.temperature = g.temperature ∧
    (g.toChemicalState K).2.pressure = g.pressure ∧
    (g.toChemicalState K).2.speciesAmounts = g.speciesAmounts := by
  have hn : (g.toChemicalState K).1.n = g.speciesAmounts := rfl
  refine ⟨rfl, rfl, hn, ?_, ?_, rfl, rfl, rfl, rfl⟩
  · rw [hn, speciesAmounts_eq]; simp
  · intro i hi
    rw [hn, speciesAmounts_eq]
    simp [hi]

/-- C4 at the sample session. -/
theorem state_conversion_reproduces_session_witness :
    (sampleGems.toChemicalState sampleKernel).1.n[2]? = some (sampleGems.speciesAmount 2) :=
  (state_conversion_reproduces_session sampleKernel sampleGems).2.2.2.2.1 2 (by decide)

/-! ## Element amounts and the charge component -/

theorem uadd_one_ne (n : Nat) : uadd n 1 ≠ n := by
  unfold uadd UNSIGNED_MOD
  omega

theorem toUnsigned_lt (x : Int) : toUnsigned x < UNSIGNED_MOD := by
  unfold toUnsigned UNSIGNED_MOD
  have h1 : (0 : Int) ≤ x % ((2 ^ 32 : Nat) : Int) := Int.emod_nonneg _ (by norm_num)
  have h2 : x % ((2 ^ 32 : Nat) : Int) < ((2 ^ 32 : Nat) : Int) := Int.emod_lt_of_pos _ (by norm_num)
  omega

/-- The loop of `setElementAmounts` keeps the system definition and writes only
amounts of components below `numElements()`. -/
theorem setElementAmountsLoop_frame (b : Vector) :
    ∀ (fuel i : Nat) (g : Gems),
      (Gems.setElementAmountsLoop b fuel i g).node.CSD = g.node.CSD ∧
      ∀ k, g.numElements ≤ k →
        (Gems.setElementAmountsLoop b fuel i g).node.Get_bIC k = g.node.Get_bIC k := by
  intro fuel
  induction fuel with
  | zero => intro i g; exact ⟨rfl, fun _ _ => rfl⟩
  | succ n ih =>
    intro i g
    unfold Gems.setElementAmountsLoop
    by_cases hlt : i < g.numElements
    · rw [if_pos hlt]
      obtain ⟨h1, h2⟩ := ih (i + 1) { g with node := g.node.Set_IC_b (b.getD i 0) i }
      refine ⟨h1, fun k hk => ?_⟩
      rw [h2 k hk]
      have hne : k ≠ i := by omega
      simp [TNode.Get_bIC, TNode.Set_IC_b, hne]
    · rw [if_neg hlt]
      exact ⟨rfl, fun _ _ => rfl⟩

/-- Whatever the session and the vector `b`, `setElementAmounts` leaves the
amount stored at component `numElements()`, the charge, as it was: the final
write goes to component `numElements() + 1`. -/
theorem setElementAmounts_keeps_charge_amount (g : Gems) (b : Vector) :
    (g.setElementAmounts b).node.Get_bIC g.numElements = g.node.Get_bIC g.numElements := by
  obtain ⟨h1, h2⟩ := setElementAmountsLoop_frame b g.numElements 0 g
  have hnum : (Gems.setElementAmountsLoop b g.numElements 0 g).numElements = g.numElements :=
    congrArg (fun c : DATACH => toUnsigned (c.nIC - 1)) h1
  have hne : g.numElements ≠ uadd g.numElements 1 :=
    fun e => uadd_one_ne g.numElements e.symm
  have h3 := h2 g.numElements (Nat.le_refl _)
  unfold Gems.setElementAmounts
  simp only [hnum]
  simp only [TNode.Get_bIC, TNode.Set_IC_b, if_neg hne] at h3 ⊢
  exact h3

/-- C5 (the code departs from the claim): for every session and every vector,
`setElementAmounts` leaves the amount of the charge component (index
`numElements()`) as it was. In the sample session, with one unit of charge
stored, `setElementAmounts` applied to a vector of length `numElements() = 2`
stores the two element amounts, leaves the amount of the charge component at
`1`, and writes the zero at index `numElements() + 1 = nIC`, past the last
component. -/
theorem setElementAmounts_misses_charge :
    (∀ (g : Gems) (b : Vector),
      (g.setElementAmounts b).node.Get_bIC g.numElements = g.node.Get_bIC g.numElements) ∧
    sampleGems.numElements = 2 ∧
    ([3, 4] : Vector).length = sampleGems.numElements ∧
    sampleGems.node.Get_bIC sampleGems.numElements = 1 ∧
    (sampleGems.setElementAmounts [3, 4]).node.Get_bIC 0 = 3 ∧
    (sampleGems.setElementAmounts [3, 4]).node.Get_bIC 1 = 4 ∧
    (sampleGems.setElementAmounts [3, 4]).node.Get_bIC sampleGems.numElements = 1 ∧
    (sampleGems.setElementAmounts [3, 4]).node.Get_bIC sampleGems.numElements ≠ 0 ∧
    (sampleGems.setElementAmounts [3, 4]).node.Get_bIC (sampleGems.numElements + 1) = 0 := by
  refine ⟨setElementAmounts_keeps_charge_amount, ?_⟩
  decide

/-! ## Formula matrix and charges -/

theorem Matrix.assign_coeff (A : Matrix) (j i : Nat) (v : ℚ) (r c : Nat) :
    (A.assign j i v).coeff r c = if r = j ∧ c = i then v else A.coeff r c := rfl

theorem formulaMatrix_column (f : Nat → ℚ) (i : Nat) :
    ∀ (E : Nat) (A : Matrix),
      ((List.range E).foldl (fun A j => A.assign j i (f j)) A).rows = A.rows ∧
      ((List.range E).foldl (fun A j => A.assign j i (f j)) A).cols = A.cols ∧
      ∀ r c, ((List.range E).foldl (fun A j => A.assign j i (f j)) A).coeff r c
        = if r < E ∧ c = i then f r else A.coeff r c := by
  intro E
  induction E with
  | zero => intro A; simp
  | succ n ih =>
    intro A
    rw [List.range_succ, List.foldl_append]
    obtain ⟨h1, h2, h3⟩ := ih A
    refine ⟨h1, h2, fun r c => ?_⟩
    simp only [List.foldl_cons, List.foldl_nil, Matrix.assign_coeff]
    by_cases hr : r = n
    · subst hr
      by_cases hc : c = i
      · simp [hc]
      · simp [hc, h3]
    · rw [h3]
      have e1 : (r < n + 1) = (r < n) := by
        apply propext; omega
      simp [hr, e1]

theorem formulaMatrix_columns (f : Nat → Nat → ℚ) (E : Nat) :
    ∀ (N : Nat) (A : Matrix),
      ((List.range N).foldl
        (fun A i => (List.range E).foldl (fun A j => A.assign j i (f j i)) A) A).rows = A.rows ∧
      ((List.range N).foldl
        (fun A i => (List.range E).foldl (fun A j => A.assign j i (f j i)) A) A).cols = A.cols ∧
      ∀ r c, ((List.range N).foldl
        (fun A i => (List.range E).foldl (fun A j => A.assign j i (f j i)) A) A).coeff r c
        = if r < E ∧ c < N then f r c else A.coeff r c := by
  intro N
  induction N with
  | zero => intro A; simp
  | succ n ih =>
    intro A
    rw [List.range_succ, List.foldl_append]
    obtain ⟨h1, h2, h3⟩ := ih A
    simp only [List.foldl_cons, List.foldl_nil]
    obtain ⟨k1, k2, k3⟩ := formulaMatrix_column (fun j => f j n) n E
      ((List.range n).foldl
        (fun A i => (List.range E).foldl (fun A j => A.assign j i (f j i)) A) A)
    refine ⟨k1.trans h1, k2.trans h2, fun r c => ?_⟩
    rw [k3, h3]
    by_cases hr : r < E
    · by_cases hc : c = n
      · subst hc; simp [hr]
      · have e1 : (c < n + 1) = (c < n) := by
          apply propext; omega
        simp [hr, hc, e1]
    · simp [hr]

/-- C6: `formulaMatrix()` has `numElements()` rows and `numSpecies()` columns,
and its entry at row `j < numElements()`, column `i < numSpecies()` is
`elementAtomsInSpecies(j, i)`. -/
theorem formulaMatrix_shape_and_entries (g : Gems) :
    g.formulaMatrix.rows = g.numElements ∧
    g.formulaMatrix.cols = g.numSpecies ∧
    ∀ j i, j < g.numElements → i < g.numSpecies →
      g.formulaMatrix.coeff j i = g.elementAtomsInSpecies j i := by
  obtain ⟨h1, h2, h3⟩ := formulaMatrix_columns (fun j i => g.elementAtomsInSpecies j i)
    g.numElements g.numSpecies (zerosMat g.numElements g.numSpecies)
  refine ⟨h1, h2, fun j i hj hi => ?_⟩
  have := h3 j i
  simp only [hj, hi, and_self, if_true] at this
  exact this

/-- C6 at the sample session: hydrogen (row 0) in water (column 2). -/
theorem formulaMatrix_shape_and_entries_witness :
    sampleGems.formulaMatrix.coeff 0 2 = sampleGems.elementAtomsInSpecies 0 2 :=
  (formulaMatrix_shape_and_entries sampleGems).2.2 0 2 (by decide) (by decide)

theorem createSpecies_fold_charge (gems : Gems) (l : List (Nat × ℚ)) :
    ∀ data : Species,
      (l.foldl
        (fun (data : Species) pair =>
          { data with
            elements := data.elements ++ [helper.createElement gems pair.1]
            atoms := data.atoms ++ [pair.2] })
        data).charge = data.charge := by
  induction l with
  | nil => intro data; rfl
  | cons p t ih =>
    intro data
    rw [List.foldl_cons, ih]

/-- C7: `speciesCharge(s)` is the coefficient of species `s` in the row of the
stoichiometry table at index `numElements()`, the row after those of the
elements, and the species record built for `s` by the conversion carries that
value as its charge. -/
theorem speciesCharge_is_charge_row (g : Gems) (s : Nat) :
    g.speciesCharge s = g.node.DCaJI s g.numElements ∧
    g.node.DCaJI s g.numElements = g.node.CSD.A s g.numElements ∧
    (helper.createSpecies g s).charge = g.node.CSD.A s g.numElements ∧
    (helper.createSpecies g s).charge = g.speciesCharge s := by
  have h : (helper.createSpecies g s).charge = g.speciesCharge s := by
    unfold helper.createSpecies
    exact createSpecies_fold_charge g _ _
  exact ⟨rfl, rfl, h, h⟩

/-! ## Phases -/

theorem foldl_push_eq_map {α β : Type} (f : α → β) (l : List α) :
    ∀ acc : List β, l.foldl (fun acc x => acc ++ [f x]) acc = acc ++ l.map f := by
  induction l with
  | nil => intro acc; simp
  | cons a t ih => intro acc; simp [ih]

theorem phaseOffset_succ (g : Gems) (k : Nat) :
    helper.phaseOffset g (k + 1) = helper.phaseOffset g k + g.numSpeciesInPhase k := by
  simp [helper.phaseOffset, List.range_succ]

theorem phaseOffset_mono (g : Gems) (k n : Nat) (h : k ≤ n) :
    helper.phaseOffset g k ≤ helper.phaseOffset g n := by
  induction n with
  | zero =>
    have : k = 0 := by omega
    rw [this]
  | succ m ih =>
    rcases Nat.eq_or_lt_of_le h with he | hl
    · rw [he]
    · have := ih (by omega)
      rw [phaseOffset_succ]
      omega

/-- The outer loop of `createPhases` after `n` turns, when the species counts
of the first `n` phases sum to less than `2 ^ 32`: the offset is that sum and
phase `k` holds the species `offset_k, ..., offset_k + numSpeciesInPhase(k) - 1`. -/
theorem createPhases_fold (g : Gems) :
    ∀ n, helper.phaseOffset g n < UNSIGNED_MOD →
      (List.range n).foldl (helper.createPhasesStep g) (0, [])
        = (helper.phaseOffset g n,
            (List.range n).map (fun k =>
              ({ name := g.phaseName k
                 species := (List.range' (helper.phaseOffset g k) (g.numSpeciesInPhase k)).map
                   (helper.createSpecies g) } : Phase))) := by
  intro n
  induction n with
  | zero => intro _; rfl
  | succ m ih =>
    intro h
    have hs := phaseOffset_succ g m
    have hm : helper.phaseOffset g m < UNSIGNED_MOD := by omega
    rw [List.range_succ, List.foldl_append, ih hm]
    have hadd : uadd (helper.phaseOffset g m) (g.numSpeciesInPhase m)
        = helper.phaseOffset g m + g.numSpeciesInPhase m := by
      unfold uadd
      exact Nat.mod_eq_of_lt (by omega)
    have hsub : helper.phaseOffset g m + g.numSpeciesInPhase m - helper.phaseOffset g m
        = g.numSpeciesInPhase m := by omega
    simp only [List.foldl_cons, List.foldl_nil, helper.createPhasesStep, hadd, hsub,
      foldl_push_eq_map, List.nil_append, List.map_append, List.map_cons, List.map_nil, hs]

theorem flatMap_phase_ranges {β : Type} (f : Nat → β) (off cnt : Nat → Nat)
    (hoff0 : off 0 = 0) (hoff : ∀ k, off (k + 1) = off k + cnt k) :
    ∀ n, (List.range n).flatMap (fun k => (List.range' (off k) (cnt k)).map f)
      = (List.range (off n)).map f := by
  intro n
  induction n with
  | zero => simp [hoff0]
  | succ m ih =>
    rw [List.range_succ, List.flatMap_append, ih, hoff m, List.range_add, List.map_append]
    simp [List.range'_eq_map_range]

/-- C8: when the per-phase species counts sum to `numSpecies()`, `createPhases`
(the phase list of the converted system) has `numPhases()` phases, phase `k`
is named `phaseName(k)` and holds `numSpeciesInPhase(k)` species, and the
species of the phases, concatenated in phase order, are those built for the
global indices `0, 1, ..., numSpecies() - 1`, in that order. -/
theorem createPhases_partitions_species (K : GemsKernel) (g : Gems)
    (hsum : ((List.range g.numPhases).map g.numSpeciesInPhase).sum = g.numSpecies) :
    (helper.createPhases g).length = g.numPhases ∧
    (∀ k, k < g.numPhases → ∃ ph, (helper.createPhases g)[k]? = some ph ∧
      ph.name = g.phaseName k ∧ ph.species.length = g.numSpeciesInPhase k ∧
      ph.species = (List.range' (helper.phaseOffset g k) (g.numSpeciesInPhase k)).map
        (helper.createSpecies g)) ∧
    (helper.createPhases g).flatMap (fun ph => ph.species)
      = (List.range g.numSpecies).map (helper.createSpecies g) ∧
    (g.toChemicalSystem K).phases = helper.createPhases g := by
  have htot : helper.phaseOffset g g.numPhases = g.numSpecies := hsum
  have hlt : helper.phaseOffset g g.numPhases < UNSIGNED_MOD := by
    rw [htot]; exact toUnsigned_lt _
  have hfold := createPhases_fold g g.numPhases hlt
  have hcp : helper.createPhases g
      = (List.range g.numPhases).map (fun k =>
          ({ name := g.phaseName k
             species := (List.range' (helper.phaseOffset g k) (g.numSpeciesInPhase k)).map
               (helper.createSpecies g) } : Phase)) := by
    unfold helper.createPhases
    rw [hfold]
  refine ⟨?_, ?_, ?_, rfl⟩
  · rw [hcp]; simp
  · intro k hk
    refine ⟨{ name := g.phaseName k
              species := (List.range' (helper.phaseOffset g k) (g.numSpeciesInPhase k)).map
                (helper.createSpecies g) }, ?_, rfl, ?_, rfl⟩
    · rw [hcp, List.getElem?_map, List.getElem?_range hk]
      rfl
    · simp
  · rw [hcp, List.flatMap_map, ← htot]
    exact flatMap_phase_ranges (helper.createSpecies g) (helper.phaseOffset g)
      g.numSpeciesInPhase rfl (phaseOffset_succ g) g.numPhases

/-- C8 at the sample session, whose phases hold 3 and 1 of the 4 species. -/
theorem createPhases_partitions_species_witness :
    (helper.createPhases sampleGems).length = sampleGems.numPhases ∧
    (∃ ph, (helper.createPhases sampleGems)[1]? = some ph ∧
      ph.name = sampleGems.phaseName 1 ∧ ph.species.length = sampleGems.numSpeciesInPhase 1 ∧
      ph.species = (List.range' (helper.phaseOffset sampleGems 1)
        (sampleGems.numSpeciesInPhase 1)).map (helper.createSpecies sampleGems)) ∧
    (helper.createPhases sampleGems).flatMap (fun ph => ph.species)
      = (List.range sampleGems.numSpecies).map (helper.createSpecies sampleGems) :=
  ⟨(createPhases_partitions_species sampleKernel sampleGems (by decide)).1,
   (createPhases_partitions_species sampleKernel sampleGems (by decide)).2.1 1 (by decide),
   (createPhases_partitions_species sampleKernel sampleGems (by decide)).2.2.1⟩

/-! ## Composition of a species -/

theorem StdMap.find_cons (m : StdMap) (k j : Nat) (v : ℚ) :
    StdMap.find ((k, v) :: m) j = if j = k then some v else StdMap.find m j := by
  unfold StdMap.find
  rw [List.lookup_cons]
  by_cases h : j = k
  · simp [h]
  · have hb : (j == k) = false := by simp [h]
    simp [h, hb]

theorem StdMap.find_assign (k : Nat) (v : ℚ) (j : Nat) :
    ∀ m : StdMap, StdMap.find (StdMap.assign m k v) j
      = if j = k then some v else StdMap.find m j := by
  intro m
  induction m with
  | nil =>
    unfold StdMap.assign
    rw [StdMap.find_cons]
  | cons hd t ih =>
    obtain ⟨k', v'⟩ := hd
    unfold StdMap.assign
    by_cases h1 : k < k'
    · rw [if_pos h1, StdMap.find_cons]
    · rw [if_neg h1]
      by_cases h2 : k = k'
      · rw [if_pos h2, StdMap.find_cons, StdMap.find_cons]
        by_cases h3 : j = k
        · simp only [if_pos h3]
        · have h4 : ¬ j = k' := fun e => h3 (e.trans h2.symm)
          simp only [if_neg h3, if_neg h4]
      · rw [if_neg h2, StdMap.find_cons, StdMap.find_cons, ih]
        by_cases h3 : j = k'
        · have h4 : ¬ j = k := fun e => h2 (e.symm.trans h3)
          simp only [if_pos h3, if_neg h4]
        · simp only [if_neg h3]

theorem StdMap.mem_assign (k : Nat) (v : ℚ) (p : Nat × ℚ) :
    ∀ m : StdMap, p ∈ StdMap.assign m k v → p = (k, v) ∨ p ∈ m := by
  intro m
  induction m with
  | nil =>
    intro h
    unfold StdMap.assign at h
    exact Or.inl (List.mem_singleton.mp h)
  | cons hd t ih =>
    obtain ⟨k', v'⟩ := hd
    intro h
    unfold StdMap.assign at h
    by_cases h1 : k < k'
    · rw [if_pos h1] at h
      rcases List.mem_cons.mp h with e | e
      · exact Or.inl e
      · exact Or.inr e
    · rw [if_neg h1] at h
      by_cases h2 : k = k'
      · rw [if_pos h2] at h
        rcases List.mem_cons.mp h with e | e
        · exact Or.inl e
        · exact Or.inr (List.mem_cons_of_mem _ e)
      · rw [if_neg h2] at h
        rcases List.mem_cons.mp h with e | e
        · exact Or.inr (e ▸ List.mem_cons_self _ _)
        · rcases ih e with e2 | e2
          · exact Or.inl e2
          · exact Or.inr (List.mem_cons_of_mem _ e2)

/-- The loop of `elementsInSpecies` after the indices below `n`: a key is
present exactly when it is below `n` with a non-zero coefficient `f`, and is
then mapped to that coefficient; every entry has a key below `n`. -/
theorem elementsInSpecies_fold (f : Nat → ℚ) :
    ∀ n : Nat,
      (∀ j, StdMap.find ((List.range n).foldl
          (fun elements j => if f j ≠ 0 then StdMap.assign elements j (f j) else elements) []) j
        = if j < n ∧ f j ≠ 0 then some (f j) else none) ∧
      (∀ p, p ∈ (List.range n).foldl
          (fun elements j => if f j ≠ 0 then StdMap.assign elements j (f j) else elements) []
        → p.1 < n) := by
  intro n
  induction n with
  | zero =>
    refine ⟨fun j => ?_, fun p hp => ?_⟩
    · simp [StdMap.find]
    · simp at hp
  | succ m ih =>
    obtain ⟨h1, h2⟩ := ih
    rw [List.range_succ, List.foldl_append]
    simp only [List.foldl_cons, List.foldl_nil]
    by_cases hz : f m ≠ 0
    · rw [if_pos hz]
      refine ⟨fun j => ?_, fun p hp => ?_⟩
      · rw [StdMap.find_assign, h1]
        by_cases hj : j = m
        · subst hj
          simp [hz]
        · have e1 : (j < m + 1) = (j < m) := by
            apply propext; omega
          simp only [if_neg hj, e1]
      · rcases StdMap.mem_assign m (f m) p _ hp with e | e
        · rw [e]; exact Nat.lt_succ_self m
        · exact Nat.lt_succ_of_lt (h2 p e)
    · rw [if_neg hz]
      refine ⟨fun j => ?_, fun p hp => Nat.lt_succ_of_lt (h2 p hp)⟩
      rw [h1]
      by_cases hj : j = m
      · subst hj
        simp [hz]
      · have e1 : (j < m + 1) = (j < m) := by
          apply propext; omega
        simp only [e1]

/-- C9: for an element index `j < numElements()`, `elementsInSpecies(s)` has
the key `j` if and only if `elementAtomsInSpecies(j, s)` is non-zero, and then
maps `j` to that coefficient, so a lookup of `j` with zero for an absent key
gives `elementAtomsInSpecies(j, s)`; no key of the map is `numElements()` or
more. -/
theorem elementsInSpecies_matches_coefficients (g : Gems) (s : Nat) :
    (∀ j, j < g.numElements →
      ((g.elementsInSpecies s).contains j = true ↔ g.elementAtomsInSpecies j s ≠ 0) ∧
      (g.elementAtomsInSpecies j s ≠ 0 →
        (g.elementsInSpecies s).find j = some (g.elementAtomsInSpecies j s)) ∧
      ((g.elementsInSpecies s).find j).getD 0 = g.elementAtomsInSpecies j s) ∧
    (∀ k, g.numElements ≤ k → (g.elementsInSpecies s).contains k = false) ∧
    (∀ p, p ∈ g.elementsInSpecies s → p.1 < g.numElements) := by
  obtain ⟨h1, h2⟩ := elementsInSpecies_fold (fun j => g.elementAtomsInSpecies j s) g.numElements
  have hfind : ∀ j, (g.elementsInSpecies s).find j
      = if j < g.numElements ∧ g.elementAtomsInSpecies j s ≠ 0
        then some (g.elementAtomsInSpecies j s) else none := h1
  refine ⟨fun j hj => ⟨?_, ?_, ?_⟩, fun k hk => ?_, h2⟩
  · unfold StdMap.contains
    rw [hfind]
    by_cases hz : g.elementAtomsInSpecies j s = 0
    · simp [hj, hz]
    · simp [hj, hz]
  · intro hz
    rw [hfind, if_pos ⟨hj, hz⟩]
  · rw [hfind]
    by_cases hz : g.elementAtomsInSpecies j s = 0
    · simp [hz]
    · simp [hj, hz]
  · unfold StdMap.contains
    rw [hfind]
    have : ¬ k < g.numElements := by omega
    simp [this]

/-- C9 at the sample session: hydroxide (species 1) contains oxygen (element 1)
with coefficient 1, and its map has no key for the charge row. -/
theorem elementsInSpecies_matches_coefficients_witness :
    ((sampleGems.elementsInSpecies 1).find 1).getD 0 = sampleGems.elementAtomsInSpecies 1 1 ∧
    (sampleGems.elementsInSpecies 1).find 1 = some (sampleGems.elementAtomsInSpecies 1 1) ∧
    (sampleGems.elementsInSpecies 1).contains 2 = false ∧
    ((0, 1) : Nat × ℚ).1 < sampleGems.numElements :=
  ⟨((elementsInSpecies_matches_coefficients sampleGems 1).1 1 (by decide)).2.2,
   ((elementsInSpecies_matches_coefficients sampleGems 1).1 1 (by decide)).2.1 (by decide),
   (elementsInSpecies_matches_coefficients sampleGems 1).2.1 2 (by decide),
   (elementsInSpecies_matches_coefficients sampleGems 1).2.2 (0, 1) (by decide)⟩

/-! ## Construction of a session -/

/-- C10: the constructor from a file name raises
"Error reading the Gems chemical system specification file." if and only if
`GEM_init` returns a non-zero result on that file name; when it returns zero
the constructor returns a session whose node is the one `GEM_init` left and
whose elapsed time is `0`. -/
theorem fromFile_fails_iff_init_fails (K : GemsKernel) (filename : String) :
    (Gems.fromFile K filename
        = Except.error "Error reading the Gems chemical system specification file."
      ↔ (K.GEM_init K.newNode filename).1 ≠ 0) ∧
    ((∃ e, Gems.fromFile K filename = Except.error e)
      ↔ (K.GEM_init K.newNode filename).1 ≠ 0) ∧
    ((K.GEM_init K.newNode filename).1 = 0 →
      Gems.fromFile K filename
        = Except.ok { node := (K.GEM_init K.newNode filename).2, elapsed_time := 0 }) ∧
    (∀ g, Gems.fromFile K filename = Except.ok g → g.elapsed_time = 0) := by
  unfold Gems.fromFile
  by_cases h : (K.GEM_init K.newNode filename).1 = 0
  · simp [h]
  · simp [h]

/-- C10 at the sample kernel: `water.lst` is read, `missing.lst` is refused. -/
theorem fromFile_fails_iff_init_fails_witness :
    Gems.fromFile sampleKernel "water.lst"
      = Except.ok { node := (sampleKernel.GEM_init sampleKernel.newNode "water.lst").2,
                    elapsed_time := 0 } ∧
    sampleGems.elapsed_time = 0 ∧
    Gems.fromFile sampleKernel "missing.lst"
      = Except.error "Error reading the Gems chemical system specification file." :=
  ⟨(fromFile_fails_iff_init_fails sampleKernel "water.lst").2.2.1 (by decide),
   (fromFile_fails_iff_init_fails sampleKernel "water.lst").2.2.2 sampleGems rfl,
   (fromFile_fails_iff_init_fails sampleKernel "missing.lst").1.mpr (by decide)⟩

/-! ## Equilibration -/

/-- C11: one call of `equilibrate()` makes exactly one call of the external
solver, on the node whose status was first set to `NEED_GEM_SIA`, and keeps the
node the solver leaves, whatever status that is; `converged()` on the
resulting session is true if and only if that status is `OK_GEM_AIA` or
`OK_GEM_SIA`, and false otherwise. `converged()` reads the session only (it
takes no solver), so reporting a failure adds no solver call. -/
theorem equilibrate_runs_solver_once (K : GemsKernel) (C : NodeStatusCodes) (start stop : ℚ)
    (g : Gems) :
    (g.equilibrate K C start stop).2
      = [{ node := { g.node with
                     CNode := { g.node.CNode with NodeStatusCH := C.NEED_GEM_SIA } }
           flag := false }] ∧
    (g.equilibrate K C start stop).2.length = 1 ∧
    (g.equilibrate K C start stop).2.map (fun c => c.node.CNode.NodeStatusCH)
      = [C.NEED_GEM_SIA] ∧
    (g.equilibrate K C start stop).1.node
      = (K.GEM_run
          { g.node with CNode := { g.node.CNode with NodeStatusCH := C.NEED_GEM_SIA } }
          false).2 ∧
    (Gems.converged C (g.equilibrate K C start stop).1 = true ↔
      (g.equilibrate K C start stop).1.node.CNode.NodeStatusCH = C.OK_GEM_AIA ∨
      (g.equilibrate K C start stop).1.node.CNode.NodeStatusCH = C.OK_GEM_SIA) ∧
    (Gems.converged C (g.equilibrate K C start stop).1 = false ↔
      (g.equilibrate K C start stop).1.node.CNode.NodeStatusCH ≠ C.OK_GEM_AIA ∧
      (g.equilibrate K C start stop).1.node.CNode.NodeStatusCH ≠ C.OK_GEM_SIA) ∧
    (g.equilibrate K C start stop).1.elapsedTime = stop - start := by
  refine ⟨rfl, rfl, rfl, rfl, ?_, ?_, rfl⟩
  · simp [Gems.converged]
  · simp [Gems.converged]

/-- The solver ending with a failure code (`7`) or never touching the status:
`converged()` is false after the single run; ending with `OK_GEM_SIA` or
`OK_GEM_AIA`: `converged()` is true. -/
theorem equilibrate_sample_runs :
    Gems.converged sampleCodes
      (sampleGems.equilibrate (kernelEndingWith 7) sampleCodes 0 1).1 = false ∧
    Gems.converged sampleCodes (sampleGems.equilibrate sampleKernel sampleCodes 0 1).1 = false ∧
    Gems.converged sampleCodes
      (sampleGems.equilibrate (kernelEndingWith 6) sampleCodes 0 1).1 = true ∧
    Gems.converged sampleCodes
      (sampleGems.equilibrate (kernelEndingWith 2) sampleCodes 0 1).1 = true ∧
    (sampleGems.equilibrate (kernelEndingWith 7) sampleCodes 0 1).2.length = 1 := by
  decide

/-! ## Amounts of the species of a phase -/

/-- The `unsigned` accumulation of the offset of phase `k` is the sum of the
counts of the phases before `k` as long as that sum is below `2 ^ 32`. -/
theorem offset_fold_eq (g : Gems) :
    ∀ k, helper.phaseOffset g k < UNSIGNED_MOD →
      (List.range k).foldl (fun offset i => uadd offset (g.numSpeciesInPhase i)) 0
        = helper.phaseOffset g k := by
  intro k
  induction k with
  | zero => intro _; rfl
  | succ m ih =>
    intro h
    have hs := phaseOffset_succ g m
    rw [List.range_succ, List.foldl_append, ih (by omega)]
    simp only [List.foldl_cons, List.foldl_nil, hs]
    unfold uadd
    exact Nat.mod_eq_of_lt (by omega)

/-- The second loop of `speciesAmountsInPhase` tabulates the amounts read at
`offset + i` (an `unsigned` sum) for `i` below the size of the phase. -/
theorem speciesAmountsInPhase_eq_map (g : Gems) (k : Nat) :
    g.speciesAmountsInPhase k
      = (List.range (g.numSpeciesInPhase k)).map (fun i =>
          g.speciesAmount
            (uadd ((List.range k).foldl (fun offset i => uadd offset (g.numSpeciesInPhase i)) 0)
              i)) := by
  have h := foldl_set_range_zeros
    (fun i => g.speciesAmount
      (uadd ((List.range k).foldl (fun offset i => uadd offset (g.numSpeciesInPhase i)) 0) i))
    (g.numSpeciesInPhase k)
  have hz : (zeros (g.numSpeciesInPhase k)).length = g.numSpeciesInPhase k := by simp [zeros]
  rw [hz] at h
  exact h

theorem speciesAmountsInPhase_length (g : Gems) (k : Nat) :
    (g.speciesAmountsInPhase k).length = g.numSpeciesInPhase k := by
  rw [speciesAmountsInPhase_eq_map]
  simp

/-- Entry `i` of `speciesAmountsInPhase(k)`, when the global index
`offset_k + i` is below `numSpecies()`. -/
theorem speciesAmountsInPhase_entry (g : Gems) (k i : Nat)
    (hi : i < g.numSpeciesInPhase k) (hin : helper.phaseOffset g k + i < g.numSpecies) :
    (g.speciesAmountsInPhase k)[i]? = some (g.speciesAmount (helper.phaseOffset g k + i)) := by
  have hN : g.numSpecies < UNSIGNED_MOD := toUnsigned_lt _
  have hoff := offset_fold_eq g k (by omega)
  have hadd : uadd (helper.phaseOffset g k) i = helper.phaseOffset g k + i := by
    unfold uadd
    exact Nat.mod_eq_of_lt (by omega)
  rw [speciesAmountsInPhase_eq_map, List.getElem?_map, List.getElem?_range hi, hoff]
  simp [hadd]

/-- The amounts of a phase whose species all have a global index below
`numSpecies()` are the amounts at the indices `offset_k, offset_k + 1, ...`. -/
theorem speciesAmountsInPhase_eq_slice (g : Gems) (k : Nat)
    (h : helper.phaseOffset g k + g.numSpeciesInPhase k ≤ g.numSpecies) :
    g.speciesAmountsInPhase k
      = (List.range' (helper.phaseOffset g k) (g.numSpeciesInPhase k)).map g.speciesAmount := by
  apply List.ext_getElem?
  intro i
  by_cases hi : i < g.numSpeciesInPhase k
  · rw [speciesAmountsInPhase_entry g k i hi (by omega), List.getElem?_map,
      List.range'_eq_map_range, List.getElem?_map, List.getElem?_range hi]
    rfl
  · have h1 : (g.speciesAmountsInPhase k)[i]? = none :=
      List.getElem?_eq_none (by rw [speciesAmountsInPhase_length]; omega)
    have h2 : ((List.range' (helper.phaseOffset g k) (g.numSpeciesInPhase k)).map
        g.speciesAmount)[i]? = none :=
      List.getElem?_eq_none (by simp; omega)
    rw [h1, h2]

theorem flatMap_speciesAmountsInPhase (g : Gems) :
    ∀ n, helper.phaseOffset g n ≤ g.numSpecies →
      (List.range n).flatMap g.speciesAmountsInPhase
        = (List.range (helper.phaseOffset g n)).map g.speciesAmount := by
  intro n
  induction n with
  | zero => intro _; simp [helper.phaseOffset]
  | succ m ih =>
    intro h
    have hs := phaseOffset_succ g m
    rw [List.range_succ, List.flatMap_append, ih (by omega), hs, List.range_add, List.map_append]
    have hslice := speciesAmountsInPhase_eq_slice g m (by omega)
    simp [hslice, List.range'_eq_map_range]

/-- C12: in a session whose phases hold species of the system (the per-phase
counts sum to at most `numSpecies()`), for every phase index
`k < numPhases()`, `speciesAmountsInPhase(k)` has length
`numSpeciesInPhase(k)` and its entry `i` equals
`speciesAmounts()[offset_k + i]`, with `offset_k` the sum of
`numSpeciesInPhase(p)` over `p < k`; and when the per-phase counts sum to
`numSpecies()`, the vectors of the phases `0, ..., numPhases() - 1`
concatenated are `speciesAmounts()`. -/
theorem speciesAmountsInPhase_slices_speciesAmounts (g : Gems)
    (hwf : ((List.range g.numPhases).map g.numSpeciesInPhase).sum ≤ g.numSpecies) :
    (∀ k, k < g.numPhases →
      (g.speciesAmountsInPhase k).length = g.numSpeciesInPhase k ∧
      ∀ i, i < g.numSpeciesInPhase k →
        helper.phaseOffset g k + i < g.numSpecies ∧
        (g.speciesAmountsInPhase k)[i]? = some (g.speciesAmount (helper.phaseOffset g k + i)) ∧
        (g.speciesAmountsInPhase k)[i]? = g.speciesAmounts[helper.phaseOffset g k + i]?) ∧
    (((List.range g.numPhases).map g.numSpeciesInPhase).sum = g.numSpecies →
      (List.range g.numPhases).flatMap g.speciesAmountsInPhase = g.speciesAmounts) := by
  have hle : helper.phaseOffset g g.numPhases ≤ g.numSpecies := hwf
  refine ⟨fun k hk => ⟨speciesAmountsInPhase_length g k, fun i hi => ?_⟩, fun hsum => ?_⟩
  · have hs := phaseOffset_succ g k
    have hm := phaseOffset_mono g (k + 1) g.numPhases hk
    have hin : helper.phaseOffset g k + i < g.numSpecies := by omega
    have h1 := speciesAmountsInPhase_entry g k i hi hin
    refine ⟨hin, h1, ?_⟩
    rw [h1, speciesAmounts_eq, List.getElem?_map, List.getElem?_range hin]
    rfl
  · have htot : helper.phaseOffset g g.numPhases = g.numSpecies := hsum
    rw [flatMap_speciesAmountsInPhase g g.numPhases hle, htot, speciesAmounts_eq]

/-- C12 at the sample session: the aqueous phase has three entries, water being
entry 2 with amount 55; entry 0 of the gas phase (phase 1) is the amount at
global index 3; and the two phases concatenated give `speciesAmounts()`. -/
theorem speciesAmountsInPhase_slices_speciesAmounts_witness :
    (sampleGems.speciesAmountsInPhase 0).length = sampleGems.numSpeciesInPhase 0 ∧
    (helper.phaseOffset sampleGems 0 + 2 < sampleGems.numSpecies ∧
      (sampleGems.speciesAmountsInPhase 0)[2]?
        = some (sampleGems.speciesAmount (helper.phaseOffset sampleGems 0 + 2)) ∧
      (sampleGems.speciesAmountsInPhase 0)[2]?
        = sampleGems.speciesAmounts[helper.phaseOffset sampleGems 0 + 2]?) ∧
    (helper.phaseOffset sampleGems 1 + 0 < sampleGems.numSpecies ∧
      (sampleGems.speciesAmountsInPhase 1)[0]?
        = some (sampleGems.speciesAmount (helper.phaseOffset sampleGems 1 + 0)) ∧
      (sampleGems.speciesAmountsInPhase 1)[0]?
        = sampleGems.speciesAmounts[helper.phaseOffset sampleGems 1 + 0]?) ∧
    (List.range sampleGems.numPhases).flatMap sampleGems.speciesAmountsInPhase
      = sampleGems.speciesAmounts :=
  ⟨((speciesAmountsInPhase_slices_speciesAmounts sampleGems (by decide)).1 0 (by decide)).1,
   ((speciesAmountsInPhase_slices_speciesAmounts sampleGems (by decide)).1 0 (by decide)).2 2
     (by decide),
   ((speciesAmountsInPhase_slices_speciesAmounts sampleGems (by decide)).1 1 (by decide)).2 0
     (by decide),
   (speciesAmountsInPhase_slices_speciesAmounts sampleGems (by decide)).2 (by decide)⟩

/-! ## The charge component and the element lookup -/

theorem indexLoop_congr (nameAt nameAt2 : Nat → String) (name : String) (size : Nat)
    (hagree : ∀ i, i < size → nameAt2 i = nameAt i) :
    ∀ (fuel index : Nat),
      Gems.indexLoop nameAt2 name size fuel index = Gems.indexLoop nameAt name size fuel index := by
  intro fuel
  induction fuel with
  | zero => intro index; rfl
  | succ n ih =>
    intro index
    unfold Gems.indexLoop
    by_cases hlt : index < size
    · rw [if_pos hlt, if_pos hlt, hagree index hlt, ih (index + 1)]
    · rw [if_neg hlt, if_neg hlt]

theorem numElements_eq (g : Gems) (h1 : 1 ≤ g.node.CSD.nIC)
    (h2 : g.node.CSD.nIC ≤ (UNSIGNED_MOD : Int)) :
    (g.numElements : Int) = g.node.CSD.nIC - 1 := by
  unfold Gems.numElements toUnsigned
  unfold UNSIGNED_MOD at *
  have h3 : (g.node.CSD.nIC - 1) % ((2 ^ 32 : Nat) : Int) = g.node.CSD.nIC - 1 :=
    Int.emod_eq_of_lt (by omega) (by push_cast at h2 ⊢; omega)
  rw [h3]
  exact Int.toNat_of_nonneg (by omega)

/-- C13 does not hold for every session with `nIC >= 1`: with
`nIC = 2 ^ 32 + 1` the value `nIC - 1` does not fit in `unsigned`, so
`numElements()` is `0`, not `nIC - 1`, and `elementIndex` searches no name at
all: `O`, stored at index `1 < nIC - 1`, is reported with the sentinel `0`. -/
theorem numElements_truncates_wide_counter :
    1 ≤ wideGems.node.CSD.nIC ∧
    wideGems.numElements = 0 ∧
    (wideGems.numElements : Int) ≠ wideGems.node.CSD.nIC - 1 ∧
    wideGems.elementName 1 = "O" ∧
    ((1 : Nat) : Int) < wideGems.node.CSD.nIC - 1 ∧
    wideGems.elementIndex "O" = wideGems.numElements ∧
    ¬ (∀ g : Gems, 1 ≤ g.node.CSD.nIC → (g.numElements : Int) = g.node.CSD.nIC - 1) := by
  refine ⟨by decide, by decide, by decide, by decide, by decide, by decide, fun h => ?_⟩
  have h1 := h wideGems (by decide)
  revert h1
  decide

/-- C13 (amended): for every session with `1 <= nIC <= 2 ^ 32`,
`numElements()` equals `nIC - 1` and `elementIndex` searches only the first
`nIC - 1` names: its result is the same for any other table of names that
agrees with `ICNL` below `numElements()`, and it is `numElements()` for every
name absent below that index. So for the name of the charge component, stored
at index `numElements()`, when it does not occur at a smaller index,
`elementIndex` returns the sentinel `numElements()`, an index at which
`elementName` returns that very name. -/
theorem elementIndex_of_charge_name_is_sentinel (g : Gems) (h1 : 1 ≤ g.node.CSD.nIC)
    (h2 : g.node.CSD.nIC ≤ (UNSIGNED_MOD : Int)) :
    (g.numElements : Int) = g.node.CSD.nIC - 1 ∧
    (∀ (names : Nat → String) (name : String),
      (∀ i : Nat, (i : Int) < g.node.CSD.nIC - 1 → names i = g.node.CSD.ICNL i) →
      Gems.elementIndex
        { g with node := { g.node with CSD := { g.node.CSD with ICNL := names } } } name
        = g.elementIndex name) ∧
    (∀ name, (∀ i : Nat, (i : Int) < g.node.CSD.nIC - 1 → g.elementName i ≠ name) →
      g.elementIndex name = g.numElements) ∧
    ((∀ i, i < g.numElements → g.elementName i ≠ g.elementName g.numElements) →
      g.elementIndex (g.elementName g.numElements) = g.numElements ∧
      g.elementName (g.elementIndex (g.elementName g.numElements))
        = g.elementName g.numElements) := by
  have hnum := numElements_eq g h1 h2
  refine ⟨hnum, fun names name hagree => ?_, fun name hmiss => ?_, fun hmiss => ?_⟩
  · exact indexLoop_congr g.elementName names name g.numElements
      (fun i hi => hagree i (by omega)) g.numElements 0
  · exact indexLoop_miss g.elementName name g.numElements g.numElements 0
      (fun i _ hi => hmiss i (by omega))
  · have he : g.elementIndex (g.elementName g.numElements) = g.numElements :=
      indexLoop_miss g.elementName _ g.numElements g.numElements 0 (fun i _ hi => hmiss i hi)
    exact ⟨he, by rw [he]⟩

/-- C13 (amended) at the sample session (`nIC = 3`): the charge `Zz` is stored
at index `2 = numElements()`, and `elementIndex("Zz")` is `2`. -/
theorem elementIndex_of_charge_name_is_sentinel_witness :
    (sampleGems.numElements : Int) = sampleGems.node.CSD.nIC - 1 ∧
    sampleGems.elementIndex "Zzz" = sampleGems.numElements ∧
    Gems.elementIndex
      { sampleGems with
        node := { sampleGems.node with
                  CSD := { sampleGems.node.CSD with ICNL := fun i => if i = 0 then "H" else "O" } } }
      "O" = sampleGems.elementIndex "O" ∧
    (sampleGems.elementIndex (sampleGems.elementName sampleGems.numElements)
        = sampleGems.numElements ∧
      sampleGems.elementName (sampleGems.elementIndex (sampleGems.elementName sampleGems.numElements))
        = sampleGems.elementName sampleGems.numElements) :=
  ⟨(elementIndex_of_charge_name_is_sentinel sampleGems (by decide) (by decide)).1,
   (elementIndex_of_charge_name_is_sentinel sampleGems (by decide) (by decide)).2.2.1 "Zzz"
     (by
       intro i hi
       have h3 : i < 2 := by
         have : sampleGems.node.CSD.nIC = 3 := rfl
         rw [this] at hi
         omega
       interval_cases i <;> decide),
   (elementIndex_of_charge_name_is_sentinel sampleGems (by decide) (by decide)).2.1
     (fun i => if i = 0 then "H" else "O") "O"
     (by
       intro i hi
       have h3 : i < 2 := by
         have : sampleGems.node.CSD.nIC = 3 := rfl
         rw [this] at hi
         omega
       interval_cases i <;> decide),
   (elementIndex_of_charge_name_is_sentinel sampleGems (by decide) (by decide)).2.2.2
     (by decide)⟩

end Reaktor
